import Mathlib

/-
Shallow embedding of the argument tokenizer and flag-driven message parser of
`src/app.ts` (the message-bot repository).

Modelling conventions:
  * JavaScript strings are modelled as `List Char`; `String.prototype.trim`
    becomes `jsTrim` (dropping the usual JS whitespace characters from both
    ends), `substr(n)` becomes `List.drop n`.
  * Thrown `CommandError`s become `Except.error (Err.cmd msg)` where `msg` is
    the `response` text; other JavaScript exceptions (for example the
    `RangeError` thrown by `Date.prototype.toISOString` on an invalid date)
    become `Except.error (Err.js msg)`.
  * The shared mutable `remainder` / `content` / `options` / `alreadySet`
    variables captured by the handler closures become an explicit parser
    state `PState` threaded through every handler.
  * The two object-literal flag tables (`argsStore`, `embedArgsStore`) become
    the lookup functions `msgDispatch` and `embedDispatch`; they model the
    tables as plain finite maps over their own keys (JavaScript
    prototype-chain lookup quirks for names such as `constructor` are outside
    the scope of the claims considered here).
  * The `while` loop of `useArgsStore` becomes a fuel-indexed recursion;
    running out of fuel yields the distinguished result `Err.outOfFuel`,
    which the termination theorem proves unreachable for sufficient fuel.
    In the source, once the `embed` flag fires, the nested
    `useArgsStore(embedArgsStore)` call loops on the same shared cursor until
    it is empty (or throws), after which the outer loop immediately
    terminates; the recursion below reproduces exactly that shape.
  * `new Date(s)` never throws in JavaScript (it yields an "Invalid Date"
    value), so the `catch` branch of the `time` handler that would raise the
    CommandError naming the literal is dead; the subsequent
    `date.toISOString()` call sits outside the `try` and throws
    `RangeError: Invalid time value` for an invalid date.  Date parsing
    itself is environment-defined, so it is a parameter `jsDateISO` of the
    context: `some iso` for a parseable literal, `none` for one that yields
    an Invalid Date.
-/

/-- Classified outcome of a parse: `cmd` is a thrown `CommandError` carrying
its user-facing `response` text, `js` is any other JavaScript exception
(carrying its message), and `outOfFuel` is the fuel-exhaustion marker of the
loop model. -/
inductive Err where
  | cmd : String → Err
  | js : String → Err
  | outOfFuel : Err
deriving DecidableEq, Repr

instance {A B : Type} [DecidableEq A] [DecidableEq B] : DecidableEq (Except A B) := fun a b =>
  match a, b with
  | .ok x, .ok y => if h : x = y then .isTrue (by rw [h]) else .isFalse (by simp [h])
  | .error x, .error y => if h : x = y then .isTrue (by rw [h]) else .isFalse (by simp [h])
  | .ok _, .error _ => .isFalse (by simp)
  | .error _, .ok _ => .isFalse (by simp)

/-- The JavaScript whitespace characters relevant to `String.prototype.trim`
for the inputs considered (space, tab, LF, CR, VT, FF). -/
def isJsSpace (c : Char) : Bool :=
  c == ' ' || c == '\t' || c == '\n' || c == '\r' || c == '\x0b' || c == '\x0c'

/-- `String.prototype.trim`: drop whitespace from both ends. -/
def jsTrim (s : List Char) : List Char :=
  ((s.dropWhile isJsSpace).reverse.dropWhile isJsSpace).reverse

/-- Abbreviation turning a Lean string literal into the `List Char` text
representation used throughout. -/
def S (s : String) : List Char := s.data

/-- The `escapedChars` table of `src/app.ts` together with the
escaped-character passthrough of the quoted-argument scanner: `r`, `n`, `t`
and backslash map through the table, any other escaped character is passed
through literally. -/
def escTable (c : Char) : Char :=
  if c = 'r' then '\r'
  else if c = 'n' then '\n'
  else if c = 't' then '\t'
  else if c = '\\' then '\\'
  else c

/-- The character-by-character scan of a quoted argument in `readNextArg`
(`src/app.ts` lines 60–86), applied to the text after the opening quote.
Returns the accumulated characters and the value of the `len` counter (one
increment per loop iteration, including the iteration that sees the closing
quote). -/
def scanQuoted : List Char → Bool → List Char × Nat
  | [], _ => ([], 0)
  | c :: rest, escaped =>
    if escaped then
      let p := scanQuoted rest false
      (escTable c :: p.1, p.2 + 1)
    else if c = '\\' then
      let p := scanQuoted rest true
      (p.1, p.2 + 1)
    else if c = '"' then ([], 1)
    else
      let p := scanQuoted rest false
      (c :: p.1, p.2 + 1)

/-- First match of the regular expression `p+` over a text: the leftmost
maximal nonempty run of characters satisfying `p`, or `none` when no
character satisfies `p` (models `String.prototype.match` with a
character-class regex). -/
def firstMatchRun (p : Char → Bool) : List Char → Option (List Char)
  | [] => none
  | c :: rest => if p c then some (c :: rest.takeWhile p) else firstMatchRun p rest

/-- Character class of the bare-argument regex `/[^ \r\n]+/`. -/
def bareP (c : Char) : Bool := !(c == ' ' || c == '\r' || c == '\n')

/-- Character class of the line regex `/[^\r\n]+/m`. -/
def notNL (c : Char) : Bool := !(c == '\r' || c == '\n')

/-- `readNextArg` (`src/app.ts` lines 54–101): trims, fails on empty input,
then either scans a quoted argument (returning `content.substr(len + 2)` as
the remainder) or takes the first run of non-space/non-newline characters
(returning the rest after one separator character, trimmed). -/
def readNextArg (content0 : List Char) : Except Err (List Char × List Char) :=
  let content := jsTrim content0
  if content = [] then .error (.cmd "Not enough arguments")
  else if content.head? = some '"' then
    let p := scanQuoted (content.drop 1) false
    .ok (p.1, content.drop (p.2 + 2))
  else
    let arg := (firstMatchRun bareP content).getD content
    .ok (arg, jsTrim (content.drop (arg.length + 1)))

/-- `readNextLine` (`src/app.ts` lines 103–113): fails on empty input; the
line is the first match of `/[^\r\n]+/m` (or the whole content when there is
none), the remainder is `content.substr(line.length + 1).trim()`. -/
def readNextLine (content : List Char) : Except Err (List Char × List Char) :=
  if content = [] then .error (.cmd "Not enough lines")
  else
    let line := (firstMatchRun notNL content).getD content
    .ok (line, jsTrim (content.drop (line.length + 1)))

/-- Index of the last `>` in a text, if any (used for the greedy match of
`/<(.+)>/` in `parseUrl`). -/
def lastIndexOfGt : List Char → Option Nat
  | [] => none
  | c :: rest =>
    match lastIndexOfGt rest with
    | some i => some (i + 1)
    | none => if c = '>' then some 0 else none

/-- Capture group of the first match of `/<(.+)>/`: scan for a `<`, take the
run of non-line-terminator characters after it, and close at the last `>` of
that run provided at least one character is captured; otherwise keep
scanning. -/
def urlCapture : List Char → Option (List Char)
  | [] => none
  | c :: rest =>
    if c = '<' then
      let seg := rest.takeWhile notNL
      match lastIndexOfGt seg with
      | some j => if 1 ≤ j then some (seg.take j) else urlCapture rest
      | none => urlCapture rest
    else urlCapture rest

/-- `parseUrl` (`src/app.ts` lines 383–392): strip angle-bracket wrapping via
`/<(.+)>/` if it matches, else return the data unchanged. -/
def parseUrl (data : List Char) : List Char := (urlCapture data).getD data

/-- A JavaScript number as produced by `parseInt`: either NaN or an integer. -/
inductive JsNum where
  | nan : JsNum
  | int : Int → JsNum
deriving DecidableEq, Repr

def isHexDigitJs (c : Char) : Bool :=
  c.isDigit || ('a' ≤ c && c ≤ 'f') || ('A' ≤ c && c ≤ 'F')

def hexVal (c : Char) : Nat :=
  if c.isDigit then c.toNat - '0'.toNat
  else if 'a' ≤ c then c.toNat - 'a'.toNat + 10
  else c.toNat - 'A'.toNat + 10

/-- `parseInt(s, 16)`: skip leading whitespace, optional sign, optional
`0x`/`0X` prefix, then the longest prefix of hexadecimal digits; NaN when no
digit is found. -/
def jsParseIntHex (s : List Char) : JsNum :=
  let s1 := s.dropWhile isJsSpace
  let signed : Bool × List Char :=
    match s1 with
    | '-' :: rest => (true, rest)
    | '+' :: rest => (false, rest)
    | _ => (false, s1)
  let s2 : List Char :=
    match signed.2 with
    | '0' :: 'x' :: rest => rest
    | '0' :: 'X' :: rest => rest
    | _ => signed.2
  let digits := s2.takeWhile isHexDigitJs
  if digits = [] then .nan
  else
    let v : Nat := digits.foldl (fun acc c => acc * 16 + hexVal c) 0
    .int (if signed.1 then -(v : Int) else (v : Int))

/-- `String.prototype.toLowerCase` (ASCII fragment, sufficient for the
comparison against the literal `now`). -/
def jsLower (s : List Char) : List Char := s.map Char.toLower

/-- Footer sub-object of an embed (`text`, optional `icon_url`). -/
structure EmbedFooter where
  text : List Char
  icon_url : Option (List Char) := none
deriving DecidableEq, Repr

/-- Author sub-object of an embed (`name`, optional `icon_url`). -/
structure EmbedAuthor where
  name : List Char
  icon_url : Option (List Char) := none
deriving DecidableEq, Repr

/-- The `APIEmbed` fields populated by the embed sub-grammar. -/
structure APIEmbed where
  title : Option (List Char) := none
  description : Option (List Char) := none
  url : Option (List Char) := none
  timestamp : Option (List Char) := none
  color : Option JsNum := none
  footer : Option EmbedFooter := none
  author : Option EmbedAuthor := none
deriving DecidableEq, Repr

/-- The `MessageCreateOptions`/`MessageEditOptions` fields touched by the
parser: the attachment list and the embed list. -/
structure MsgOptions where
  files : Option (List (List Char)) := none
  embeds : Option (List APIEmbed) := none
deriving DecidableEq, Repr

/-- The data of an original message being edited (`original.content`,
`original.embeds`). -/
structure Orig where
  content : List Char
  embeds : List APIEmbed
deriving DecidableEq, Repr

/-- Per-invocation context: the optional original message (for `sedit`), the
invoking user's identity data used by the `...me` shorthands, and the
environment-defined pieces of `Date`: the ISO rendering of the current
instant and the ISO rendering of a parseable date literal (`none` when
`new Date(s)` yields an Invalid Date). -/
structure Ctx where
  original : Option Orig := none
  memberNickname : Option (List Char) := none
  username : List Char := []
  avatarURL : List Char := []
  nowISO : List Char := []
  jsDateISO : List Char → Option (List Char) := fun _ => none

/-- The mutable parse state captured by the handler closures of
`parseMessageAdvancedArgs`: the cursor, the accumulated `content` (a string,
initially empty), the accumulated options, and the `alreadySet` claim table
(modelled as the list of claimed labels). -/
structure PState where
  remainder : List Char
  content : List Char := []
  options : MsgOptions := {}
  alreadySet : List String := []
deriving DecidableEq, Repr

/-- `checkSet` (`src/app.ts` lines 134–139): a second claim of the same label
throws `CommandError` with text `<label> set more than once`; a first claim
records the label. -/
def checkSet (alreadySet : List String) (name : String) : Except Err (List String) :=
  if name ∈ alreadySet then .error (.cmd (name ++ " set more than once"))
  else .ok (name :: alreadySet)

/-- The `content` action of the message grammar (aliases `c`, `txt`, `text`):
read one argument, then `setContent` (claim `Content`, assign). -/
def contentA (st : PState) : Except Err PState :=
  match readNextArg st.remainder with
  | .error e => .error e
  | .ok (txt, rem) =>
    match checkSet st.alreadySet "Content" with
    | .error e => .error e
    | .ok as2 => .ok { st with remainder := rem, content := txt, alreadySet := as2 }

/-- The `attttachment` action (aliases `f`, `att`): read one argument and
append it to `options.files`. -/
def attachmentA (st : PState) : Except Err PState :=
  match readNextArg st.remainder with
  | .error e => .error e
  | .ok (url, rem) =>
    let opts : MsgOptions := { st.options with files := some ((st.options.files.getD []) ++ [url]) }
    .ok { st with remainder := rem, options := opts }

/-- The `insert` action (alias `ins`, only present in the table when an
original message is supplied): set `content` to the original's content and
replace `options` by a record holding only the original's embeds.  Note that
it performs no `checkSet`. -/
def insertA (o : Orig) (st : PState) : PState :=
  { st with content := o.content, options := { files := none, embeds := some o.embeds } }

/-- The message-level `rest` catch-all: `setContent(remainder)` (claim
`Content`, assign the whole cursor) then empty the cursor. -/
def restA (st : PState) : Except Err PState :=
  match checkSet st.alreadySet "Content" with
  | .error e => .error e
  | .ok as2 => .ok { st with remainder := [], content := st.remainder, alreadySet := as2 }

/-- `options.embeds?.[0]` decoded, defaulting to the empty embed — the seed
expression of the `embed` handler. -/
def headEmbed (o : MsgOptions) : APIEmbed :=
  match o.embeds with
  | some (e :: _) => e
  | _ => {}

/-- Replace the embed list by the single (updated) working embed, as the
aliasing `options.embeds = [embed]` does in the source. -/
def setEmbed (st : PState) (e : APIEmbed) : PState :=
  { st with options := { st.options with embeds := some [e] } }

/-- The seeding step of the `embed` handler: the working embed is
`jsonDecode(options.embeds?.[0]) ?? {}` and `options.embeds` becomes the
one-element list holding it. -/
def seedEmbed (st : PState) : PState := setEmbed st (headEmbed st.options)

/-- Embed `title`: claim `Embed title`, read one argument, set the title. -/
def titleA (st : PState) : Except Err PState :=
  match checkSet st.alreadySet "Embed title" with
  | .error e => .error e
  | .ok as2 =>
    match readNextArg st.remainder with
    | .error e => .error e
    | .ok (title, rem) =>
      .ok (setEmbed { st with remainder := rem, alreadySet := as2 }
             { headEmbed st.options with title := some title })

/-- Embed `footer`: claim `Embed footer`, read one argument, set the footer
text (creating the footer object if absent). -/
def footerA (st : PState) : Except Err PState :=
  match checkSet st.alreadySet "Embed footer" with
  | .error e => .error e
  | .ok as2 =>
    match readNextArg st.remainder with
    | .error e => .error e
    | .ok (footer, rem) =>
      let e0 := headEmbed st.options
      let f : EmbedFooter :=
        match e0.footer with
        | none => { text := footer }
        | some f0 => { f0 with text := footer }
      .ok (setEmbed { st with remainder := rem, alreadySet := as2 }
             { e0 with footer := some f })

/-- Embed `footerme`: claim `Embed footer` and `Embed footer icon`, then set
both footer text (nickname, else username) and footer icon (avatar URL). -/
def footermeA (ctx : Ctx) (st : PState) : Except Err PState :=
  match checkSet st.alreadySet "Embed footer" with
  | .error e => .error e
  | .ok as2 =>
    match checkSet as2 "Embed footer icon" with
    | .error e => .error e
    | .ok as3 =>
      let e0 := headEmbed st.options
      let name := ctx.memberNickname.getD ctx.username
      let f : EmbedFooter :=
        match e0.footer with
        | none => { text := name, icon_url := some ctx.avatarURL }
        | some f0 => { f0 with text := name, icon_url := some ctx.avatarURL }
      .ok (setEmbed { st with alreadySet := as3 } { e0 with footer := some f })

/-- Embed `footericon`: claim `Embed footer icon`; if no footer exists yet,
throw the ordering `CommandError`; otherwise read one argument and attach it
as the icon.  (The second `if (!embed.footer)` branch of the source is dead
after the throw and is therefore not represented.) -/
def footericonA (st : PState) : Except Err PState :=
  match checkSet st.alreadySet "Embed footer icon" with
  | .error e => .error e
  | .ok as2 =>
    let e0 := headEmbed st.options
    match e0.footer with
    | none => .error (.cmd "Footer text needs to be set before the footer icon")
    | some f0 =>
      match readNextArg st.remainder with
      | .error e => .error e
      | .ok (url, rem) =>
        .ok (setEmbed { st with remainder := rem, alreadySet := as2 }
               { e0 with footer := some { f0 with icon_url := some url } })

/-- Embed `author`: claim `Embed author`, read one argument, set the author
name (creating the author object if absent). -/
def authorA (st : PState) : Except Err PState :=
  match checkSet st.alreadySet "Embed author" with
  | .error e => .error e
  | .ok as2 =>
    match readNextArg st.remainder with
    | .error e => .error e
    | .ok (author, rem) =>
      let e0 := headEmbed st.options
      let a : EmbedAuthor :=
        match e0.author with
        | none => { name := author }
        | some a0 => { a0 with name := author }
      .ok (setEmbed { st with remainder := rem, alreadySet := as2 }
             { e0 with author := some a })

/-- Embed `authorme`: claim `Embed author` and `Embed author icon`, then set
both author name and icon from the invoking user's identity. -/
def authormeA (ctx : Ctx) (st : PState) : Except Err PState :=
  match checkSet st.alreadySet "Embed author" with
  | .error e => .error e
  | .ok as2 =>
    match checkSet as2 "Embed author icon" with
    | .error e => .error e
    | .ok as3 =>
      let e0 := headEmbed st.options
      let name := ctx.memberNickname.getD ctx.username
      let a : EmbedAuthor :=
        match e0.author with
        | none => { name := name, icon_url := some ctx.avatarURL }
        | some a0 => { a0 with name := name, icon_url := some ctx.avatarURL }
      .ok (setEmbed { st with alreadySet := as3 } { e0 with author := some a })

/-- Embed `authoricon`: claim `Embed author icon`; ordering error if no
author exists; otherwise read one argument and attach it as the icon. -/
def authoriconA (st : PState) : Except Err PState :=
  match checkSet st.alreadySet "Embed author icon" with
  | .error e => .error e
  | .ok as2 =>
    let e0 := headEmbed st.options
    match e0.author with
    | none => .error (.cmd "author text needs to be set before the author icon")
    | some a0 =>
      match readNextArg st.remainder with
      | .error e => .error e
      | .ok (url, rem) =>
        .ok (setEmbed { st with remainder := rem, alreadySet := as2 }
               { e0 with author := some { a0 with icon_url := some url } })

/-- Embed `time`: claim `Embed timestamp`, read one argument; `now`
(case-insensitively) yields the current instant; any other literal goes
through `new Date(...)`, which never throws (hence the source's `catch`
raising the descriptive CommandError is dead code), and an Invalid Date then
makes the `toISOString()` call outside the `try` throw a `RangeError`. -/
def timeA (ctx : Ctx) (st : PState) : Except Err PState :=
  match checkSet st.alreadySet "Embed timestamp" with
  | .error e => .error e
  | .ok as2 =>
    match readNextArg st.remainder with
    | .error e => .error e
    | .ok (time, rem) =>
      let iso : Except Err (List Char) :=
        if jsLower time = S "now" then .ok ctx.nowISO
        else
          match ctx.jsDateISO time with
          | some iso => .ok iso
          | none => .error (.js "RangeError: Invalid time value")
      match iso with
      | .error e => .error e
      | .ok iso =>
        .ok (setEmbed { st with remainder := rem, alreadySet := as2 }
               { headEmbed st.options with timestamp := some iso })

/-- The embed `content` action (aliases `c`, `txt`, `text`): read one
argument, then `setEmbedContent` (claim `Embed content`, set description). -/
def econtentA (st : PState) : Except Err PState :=
  match readNextArg st.remainder with
  | .error e => .error e
  | .ok (desc, rem) =>
    match checkSet st.alreadySet "Embed content" with
    | .error e => .error e
    | .ok as2 =>
      .ok (setEmbed { st with remainder := rem, alreadySet := as2 }
             { headEmbed st.options with description := some desc })

/-- Embed `url`: claim `Embed url`, read one argument, strip angle brackets
via `parseUrl`, set the url. -/
def urlA (st : PState) : Except Err PState :=
  match checkSet st.alreadySet "Embed url" with
  | .error e => .error e
  | .ok as2 =>
    match readNextArg st.remainder with
    | .error e => .error e
    | .ok (url, rem) =>
      .ok (setEmbed { st with remainder := rem, alreadySet := as2 }
             { headEmbed st.options with url := some (parseUrl url) })

/-- Embed `color` (alias `col`): claim `Embed color`, read one argument,
interpret it with `parseInt(col, 16)`. -/
def colorA (st : PState) : Except Err PState :=
  match checkSet st.alreadySet "Embed color" with
  | .error e => .error e
  | .ok as2 =>
    match readNextArg st.remainder with
    | .error e => .error e
    | .ok (col, rem) =>
      .ok (setEmbed { st with remainder := rem, alreadySet := as2 }
             { headEmbed st.options with color := some (jsParseIntHex col) })

/-- The embed `rest` catch-all: `setEmbedContent(remainder)` (claim
`Embed content`, set description to the whole cursor) then empty the
cursor. -/
def erestA (st : PState) : Except Err PState :=
  match checkSet st.alreadySet "Embed content" with
  | .error e => .error e
  | .ok as2 =>
    .ok (setEmbed { st with remainder := [], alreadySet := as2 }
           { headEmbed st.options with description := some st.remainder })

/-- Lookup in the message-level flag table `argsStore` (the `embed` key is
dispatched separately by the loop since its handler recurses).  The
`ins`/`insert` keys exist only when an original message was supplied. -/
def msgDispatch (ctx : Ctx) (flag : String) : Option (PState → Except Err PState) :=
  if flag = "ins" ∨ flag = "insert" then
    match ctx.original with
    | some o => some (fun st => .ok (insertA o st))
    | none => none
  else if flag = "c" ∨ flag = "txt" ∨ flag = "text" ∨ flag = "content" then some contentA
  else if flag = "f" ∨ flag = "att" ∨ flag = "attttachment" then some attachmentA
  else if flag = "rest" then some restA
  else none

/-- Lookup in the embed-level flag table `embedArgsStore`. -/
def embedDispatch (ctx : Ctx) (flag : String) : Option (PState → Except Err PState) :=
  if flag = "title" then some titleA
  else if flag = "footer" then some footerA
  else if flag = "footerme" then some (footermeA ctx)
  else if flag = "footericon" then some footericonA
  else if flag = "author" then some authorA
  else if flag = "authorme" then some (authormeA ctx)
  else if flag = "authoricon" then some authoriconA
  else if flag = "time" then some (timeA ctx)
  else if flag = "c" ∨ flag = "txt" ∨ flag = "text" ∨ flag = "content" then some econtentA
  else if flag = "url" then some urlA
  else if flag = "col" ∨ flag = "color" then some colorA
  else if flag = "rest" then some erestA
  else none

/-- JavaScript `\w` (ASCII word character). -/
def isWordChar (c : Char) : Bool := c.isAlpha || c.isDigit || c == '_'

/-- The `/^-\w/` test of the dispatch loop. -/
def isFlagShaped : List Char → Bool
  | '-' :: c :: _ => isWordChar c
  | _ => false

/-- One flag extraction of the dispatch loop: when the cursor is flag-shaped,
read the next argument and strip its leading dash for the flag name;
otherwise the flag name is the sentinel `rest` and the cursor is untouched. -/
def nextFlag (st : PState) : Except Err (String × PState) :=
  if isFlagShaped st.remainder then
    match readNextArg st.remainder with
    | .error e => .error e
    | .ok (a, rem) => .ok (String.mk (a.drop 1), { st with remainder := rem })
  else .ok ("rest", st)

/-- Which flag table the loop currently dispatches against. -/
inductive Mode where
  | msg : Mode
  | emb : Mode
deriving DecidableEq, Repr

/-- The dispatch loop `useArgsStore` (`src/app.ts` lines 141–157),
fuel-indexed.  In `msg` mode the `embed` flag seeds the working embed and
runs the loop in `emb` mode on the same cursor to completion before the
outer loop resumes (as the awaited nested `useArgsStore(embedArgsStore)` call
does); an unknown flag throws the `CommandError` naming it; after every
handler the cursor is trimmed. -/
def useArgsStore (ctx : Ctx) : Nat → Mode → PState → Except Err PState
  | 0, _, _ => .error .outOfFuel
  | fuel + 1, mode, st =>
    if st.remainder = [] then .ok st
    else
      match nextFlag st with
      | .error e => .error e
      | .ok (flag, st1) =>
        match mode with
        | .msg =>
          match msgDispatch ctx flag with
          | some h =>
            match h st1 with
            | .error e => .error e
            | .ok st2 => useArgsStore ctx fuel .msg { st2 with remainder := jsTrim st2.remainder }
          | none =>
            if flag = "embed" then
              match useArgsStore ctx fuel .emb (seedEmbed st1) with
              | .error e => .error e
              | .ok st3 => useArgsStore ctx fuel .msg { st3 with remainder := jsTrim st3.remainder }
            else .error (.cmd ("Argument " ++ flag ++ " is unknown/unexpected here"))
        | .emb =>
          match embedDispatch ctx flag with
          | some h =>
            match h st1 with
            | .error e => .error e
            | .ok st2 => useArgsStore ctx fuel .emb { st2 with remainder := jsTrim st2.remainder }
          | none => .error (.cmd ("Argument " ++ flag ++ " is unknown/unexpected here"))

/-- `parseMessageAdvancedArgs` (`src/app.ts` lines 123–354): trim the
arguments, run the dispatch loop on the message table with sufficient fuel,
and return the accumulated `content` and `options`. -/
def parseMessageAdvancedArgs (ctx : Ctx) (args : List Char) :
    Except Err (List Char × MsgOptions) :=
  let rem := jsTrim args
  (useArgsStore ctx (rem.length + 1) .msg { remainder := rem }).map
    (fun st => (st.content, st.options))

/-- Context of a fresh `ssend` parse (no original message); the current
instant renders to a fixed ISO string and no date literal parses. -/
def ctxPlain : Ctx :=
  { nowISO := S "2020-01-01T00:00:00.000Z" }

/-- A sample embed carried by an original message. -/
def embT : APIEmbed := { title := some (S "t") }

/-- Context of a `sedit` parse: an original message with content `orig` and
one embed. -/
def ctxEdit : Ctx :=
  { original := some { content := S "orig", embeds := [embT] } }

theorem length_dropWhile_le (p : Char → Bool) (l : List Char) :
    (l.dropWhile p).length ≤ l.length := by
  induction l with
  | nil => simp
  | cons c t ih =>
    by_cases h : p c
    · rw [List.dropWhile_cons_of_pos h]
      exact le_trans ih (by simp)
    · rw [List.dropWhile_cons_of_neg h]

theorem jsTrim_length_le (s : List Char) : (jsTrim s).length ≤ s.length := by
  unfold jsTrim
  have h1 := length_dropWhile_le isJsSpace s
  have h2 := length_dropWhile_le isJsSpace (s.dropWhile isJsSpace).reverse
  simp only [List.length_reverse] at h2 ⊢
  omega

theorem jsTrim_nil : jsTrim [] = [] := rfl


theorem readNextArg_error (s : List Char) (e : Err) (h : readNextArg s = .error e) :
    e = .cmd "Not enough arguments" := by
  by_cases h1 : jsTrim s = []
  · simp [readNextArg, h1] at h
    exact h.symm
  · by_cases h2 : (jsTrim s).head? = some '"'
    · simp [readNextArg, h1, h2] at h
    · simp [readNextArg, h1, h2] at h

theorem readNextArg_ok_length (s a r : List Char) (h : readNextArg s = .ok (a, r)) :
    r.length < s.length := by
  have hle := jsTrim_length_le s
  by_cases h1 : jsTrim s = []
  · simp [readNextArg, h1] at h
  · have hpos : 0 < (jsTrim s).length := List.length_pos.mpr h1
    by_cases h2 : (jsTrim s).head? = some '"'
    · simp [readNextArg, h1, h2] at h
      obtain ⟨ha, hr⟩ := h
      subst hr
      simp only [List.length_drop]
      omega
    · simp [readNextArg, h1, h2] at h
      obtain ⟨ha, hr⟩ := h
      subst hr
      refine lt_of_le_of_lt (jsTrim_length_le _) ?_
      simp only [List.length_drop]
      omega

theorem checkSet_mem (as : List String) (name : String) (h : name ∈ as) :
    checkSet as name = .error (.cmd (name ++ " set more than once")) := by
  simp [checkSet, h]

theorem checkSet_error (as : List String) (name : String) (e : Err)
    (h : checkSet as name = .error e) : e = .cmd (name ++ " set more than once") := by
  by_cases h1 : name ∈ as
  · simp [checkSet, h1] at h
    exact h.symm
  · simp [checkSet, h1] at h

theorem nextFlag_error (st : PState) (e : Err) (h : nextFlag st = .error e) :
    e = .cmd "Not enough arguments" := by
  by_cases hf : isFlagShaped st.remainder
  · cases hra : readNextArg st.remainder with
    | error e2 =>
      simp [nextFlag, hf, hra] at h
      subst h
      exact readNextArg_error _ _ hra
    | ok p =>
      obtain ⟨a, rem⟩ := p
      simp [nextFlag, hf, hra] at h
  · simp [nextFlag, hf] at h

theorem nextFlag_ok (st : PState) (flag : String) (st1 : PState)
    (h : nextFlag st = .ok (flag, st1)) :
    st1.remainder.length < st.remainder.length ∨ (st1 = st ∧ flag = "rest") := by
  by_cases hf : isFlagShaped st.remainder
  · cases hra : readNextArg st.remainder with
    | error e2 => simp [nextFlag, hf, hra] at h
    | ok p =>
      obtain ⟨a, rem⟩ := p
      simp [nextFlag, hf, hra] at h
      obtain ⟨hflag, hst⟩ := h
      subst hst
      exact Or.inl (by simpa using readNextArg_ok_length _ _ _ hra)
  · simp [nextFlag, hf] at h
    obtain ⟨hflag, hst⟩ := h
    subst hst
    subst hflag
    exact Or.inr ⟨rfl, rfl⟩

/-- A handler step is well-behaved for the loop analysis: it never produces
the fuel marker and never grows the cursor. -/
def GoodStep (f : PState → Except Err PState) : Prop :=
  ∀ st : PState, f st ≠ .error .outOfFuel ∧
    ∀ st2, f st = .ok st2 → st2.remainder.length ≤ st.remainder.length

theorem contentA_good : GoodStep contentA := by
  intro st
  cases hra : readNextArg st.remainder with
  | error e =>
    obtain rfl := readNextArg_error _ _ hra
    exact ⟨by simp [contentA, hra], by simp [contentA, hra]⟩
  | ok p =>
    obtain ⟨v, rem⟩ := p
    cases hcs : checkSet st.alreadySet "Content" with
    | error e =>
      obtain rfl := checkSet_error _ _ _ hcs
      exact ⟨by simp [contentA, hra, hcs], by simp [contentA, hra, hcs]⟩
    | ok as2 =>
      refine ⟨by simp [contentA, hra, hcs], ?_⟩
      intro st2 h
      simp only [contentA, hra, hcs, Except.ok.injEq] at h
      subst h
      exact le_of_lt (readNextArg_ok_length _ _ _ hra)

theorem attachmentA_good : GoodStep attachmentA := by
  intro st
  cases hra : readNextArg st.remainder with
  | error e =>
    obtain rfl := readNextArg_error _ _ hra
    exact ⟨by simp [attachmentA, hra], by simp [attachmentA, hra]⟩
  | ok p =>
    obtain ⟨v, rem⟩ := p
    refine ⟨by simp [attachmentA, hra], ?_⟩
    intro st2 h
    simp only [attachmentA, hra, Except.ok.injEq] at h
    subst h
    exact le_of_lt (readNextArg_ok_length _ _ _ hra)

theorem restA_good : GoodStep restA := by
  intro st
  cases hcs : checkSet st.alreadySet "Content" with
  | error e =>
    obtain rfl := checkSet_error _ _ _ hcs
    exact ⟨by simp [restA, hcs], by simp [restA, hcs]⟩
  | ok as2 =>
    refine ⟨by simp [restA, hcs], ?_⟩
    intro st2 h
    simp only [restA, hcs, Except.ok.injEq] at h
    subst h
    simp

theorem restA_empty (st st2 : PState) (h : restA st = .ok st2) : st2.remainder = [] := by
  cases hcs : checkSet st.alreadySet "Content" with
  | error e => simp [restA, hcs] at h
  | ok as2 =>
    simp only [restA, hcs, Except.ok.injEq] at h
    subst h
    rfl

theorem titleA_good : GoodStep titleA := by
  intro st
  cases hcs : checkSet st.alreadySet "Embed title" with
  | error e =>
    obtain rfl := checkSet_error _ _ _ hcs
    exact ⟨by simp [titleA, hcs], by simp [titleA, hcs]⟩
  | ok as2 =>
    cases hra : readNextArg st.remainder with
    | error e =>
      obtain rfl := readNextArg_error _ _ hra
      exact ⟨by simp [titleA, hcs, hra], by simp [titleA, hcs, hra]⟩
    | ok p =>
      obtain ⟨v, rem⟩ := p
      refine ⟨by simp [titleA, hcs, hra], ?_⟩
      intro st2 h
      simp only [titleA, hcs, hra, Except.ok.injEq] at h
      subst h
      simpa [setEmbed] using le_of_lt (readNextArg_ok_length _ _ _ hra)

theorem footerA_good : GoodStep footerA := by
  intro st
  cases hcs : checkSet st.alreadySet "Embed footer" with
  | error e =>
    obtain rfl := checkSet_error _ _ _ hcs
    exact ⟨by simp [footerA, hcs], by simp [footerA, hcs]⟩
  | ok as2 =>
    cases hra : readNextArg st.remainder with
    | error e =>
      obtain rfl := readNextArg_error _ _ hra
      exact ⟨by simp [footerA, hcs, hra], by simp [footerA, hcs, hra]⟩
    | ok p =>
      obtain ⟨v, rem⟩ := p
      refine ⟨by simp [footerA, hcs, hra], ?_⟩
      intro st2 h
      simp only [footerA, hcs, hra, Except.ok.injEq] at h
      subst h
      simpa [setEmbed] using le_of_lt (readNextArg_ok_length _ _ _ hra)

theorem footermeA_good (ctx : Ctx) : GoodStep (footermeA ctx) := by
  intro st
  cases hcs : checkSet st.alreadySet "Embed footer" with
  | error e =>
    obtain rfl := checkSet_error _ _ _ hcs
    exact ⟨by simp [footermeA, hcs], by simp [footermeA, hcs]⟩
  | ok as2 =>
    cases hcs2 : checkSet as2 "Embed footer icon" with
    | error e =>
      obtain rfl := checkSet_error _ _ _ hcs2
      exact ⟨by simp [footermeA, hcs, hcs2], by simp [footermeA, hcs, hcs2]⟩
    | ok as3 =>
      refine ⟨by simp [footermeA, hcs, hcs2], ?_⟩
      intro st2 h
      simp only [footermeA, hcs, hcs2, Except.ok.injEq] at h
      subst h
      simp [setEmbed]

theorem footericonA_good : GoodStep footericonA := by
  intro st
  cases hcs : checkSet st.alreadySet "Embed footer icon" with
  | error e =>
    obtain rfl := checkSet_error _ _ _ hcs
    exact ⟨by simp [footericonA, hcs], by simp [footericonA, hcs]⟩
  | ok as2 =>
    cases hfoot : (headEmbed st.options).footer with
    | none => exact ⟨by simp [footericonA, hcs, hfoot], by simp [footericonA, hcs, hfoot]⟩
    | some f0 =>
      cases hra : readNextArg st.remainder with
      | error e =>
        obtain rfl := readNextArg_error _ _ hra
        exact ⟨by simp [footericonA, hcs, hfoot, hra], by simp [footericonA, hcs, hfoot, hra]⟩
      | ok p =>
        obtain ⟨v, rem⟩ := p
        refine ⟨by simp [footericonA, hcs, hfoot, hra], ?_⟩
        intro st2 h
        simp only [footericonA, hcs, hfoot, hra, Except.ok.injEq] at h
        subst h
        simpa [setEmbed] using le_of_lt (readNextArg_ok_length _ _ _ hra)

theorem authorA_good : GoodStep authorA := by
  intro st
  cases hcs : checkSet st.alreadySet "Embed author" with
  | error e =>
    obtain rfl := checkSet_error _ _ _ hcs
    exact ⟨by simp [authorA, hcs], by simp [authorA, hcs]⟩
  | ok as2 =>
    cases hra : readNextArg st.remainder with
    | error e =>
      obtain rfl := readNextArg_error _ _ hra
      exact ⟨by simp [authorA, hcs, hra], by simp [authorA, hcs, hra]⟩
    | ok p =>
      obtain ⟨v, rem⟩ := p
      refine ⟨by simp [authorA, hcs, hra], ?_⟩
      intro st2 h
      simp only [authorA, hcs, hra, Except.ok.injEq] at h
      subst h
      simpa [setEmbed] using le_of_lt (readNextArg_ok_length _ _ _ hra)

theorem authormeA_good (ctx : Ctx) : GoodStep (authormeA ctx) := by
  intro st
  cases hcs : checkSet st.alreadySet "Embed author" with
  | error e =>
    obtain rfl := checkSet_error _ _ _ hcs
    exact ⟨by simp [authormeA, hcs], by simp [authormeA, hcs]⟩
  | ok as2 =>
    cases hcs2 : checkSet as2 "Embed author icon" with
    | error e =>
      obtain rfl := checkSet_error _ _ _ hcs2
      exact ⟨by simp [authormeA, hcs, hcs2], by simp [authormeA, hcs, hcs2]⟩
    | ok as3 =>
      refine ⟨by simp [authormeA, hcs, hcs2], ?_⟩
      intro st2 h
      simp only [authormeA, hcs, hcs2, Except.ok.injEq] at h
      subst h
      simp [setEmbed]

theorem authoriconA_good : GoodStep authoriconA := by
  intro st
  cases hcs : checkSet st.alreadySet "Embed author icon" with
  | error e =>
    obtain rfl := checkSet_error _ _ _ hcs
    exact ⟨by simp [authoriconA, hcs], by simp [authoriconA, hcs]⟩
  | ok as2 =>
    cases haut : (headEmbed st.options).author with
    | none => exact ⟨by simp [authoriconA, hcs, haut], by simp [authoriconA, hcs, haut]⟩
    | some a0 =>
      cases hra : readNextArg st.remainder with
      | error e =>
        obtain rfl := readNextArg_error _ _ hra
        exact ⟨by simp [authoriconA, hcs, haut, hra], by simp [authoriconA, hcs, haut, hra]⟩
      | ok p =>
        obtain ⟨v, rem⟩ := p
        refine ⟨by simp [authoriconA, hcs, haut, hra], ?_⟩
        intro st2 h
        simp only [authoriconA, hcs, haut, hra, Except.ok.injEq] at h
        subst h
        simpa [setEmbed] using le_of_lt (readNextArg_ok_length _ _ _ hra)

theorem timeA_good (ctx : Ctx) : GoodStep (timeA ctx) := by
  intro st
  cases hcs : checkSet st.alreadySet "Embed timestamp" with
  | error e =>
    obtain rfl := checkSet_error _ _ _ hcs
    exact ⟨by simp [timeA, hcs], by simp [timeA, hcs]⟩
  | ok as2 =>
    cases hra : readNextArg st.remainder with
    | error e =>
      obtain rfl := readNextArg_error _ _ hra
      exact ⟨by simp [timeA, hcs, hra], by simp [timeA, hcs, hra]⟩
    | ok p =>
      obtain ⟨v, rem⟩ := p
      by_cases hnow : jsLower v = S "now"
      · refine ⟨by simp [timeA, hcs, hra, hnow], ?_⟩
        intro st2 h
        simp only [timeA, hcs, hra, hnow, if_pos, Except.ok.injEq] at h
        subst h
        simpa [setEmbed] using le_of_lt (readNextArg_ok_length _ _ _ hra)
      · cases hdi : ctx.jsDateISO v with
        | none => exact ⟨by simp [timeA, hcs, hra, hnow, hdi], by simp [timeA, hcs, hra, hnow, hdi]⟩
        | some iso =>
          refine ⟨by simp [timeA, hcs, hra, hnow, hdi], ?_⟩
          intro st2 h
          simp only [timeA, hcs, hra, Except.ok.injEq] at h
          rw [if_neg hnow] at h
          simp only [hdi, Except.ok.injEq] at h
          subst h
          simpa [setEmbed] using le_of_lt (readNextArg_ok_length _ _ _ hra)

theorem econtentA_good : GoodStep econtentA := by
  intro st
  cases hra : readNextArg st.remainder with
  | error e =>
    obtain rfl := readNextArg_error _ _ hra
    exact ⟨by simp [econtentA, hra], by simp [econtentA, hra]⟩
  | ok p =>
    obtain ⟨v, rem⟩ := p
    cases hcs : checkSet st.alreadySet "Embed content" with
    | error e =>
      obtain rfl := checkSet_error _ _ _ hcs
      exact ⟨by simp [econtentA, hra, hcs], by simp [econtentA, hra, hcs]⟩
    | ok as2 =>
      refine ⟨by simp [econtentA, hra, hcs], ?_⟩
      intro st2 h
      simp only [econtentA, hra, hcs, Except.ok.injEq] at h
      subst h
      simpa [setEmbed] using le_of_lt (readNextArg_ok_length _ _ _ hra)

theorem urlA_good : GoodStep urlA := by
  intro st
  cases hcs : checkSet st.alreadySet "Embed url" with
  | error e =>
    obtain rfl := checkSet_error _ _ _ hcs
    exact ⟨by simp [urlA, hcs], by simp [urlA, hcs]⟩
  | ok as2 =>
    cases hra : readNextArg st.remainder with
    | error e =>
      obtain rfl := readNextArg_error _ _ hra
      exact ⟨by simp [urlA, hcs, hra], by simp [urlA, hcs, hra]⟩
    | ok p =>
      obtain ⟨v, rem⟩ := p
      refine ⟨by simp [urlA, hcs, hra], ?_⟩
      intro st2 h
      simp only [urlA, hcs, hra, Except.ok.injEq] at h
      subst h
      simpa [setEmbed] using le_of_lt (readNextArg_ok_length _ _ _ hra)

theorem colorA_good : GoodStep colorA := by
  intro st
  cases hcs : checkSet st.alreadySet "Embed color" with
  | error e =>
    obtain rfl := checkSet_error _ _ _ hcs
    exact ⟨by simp [colorA, hcs], by simp [colorA, hcs]⟩
  | ok as2 =>
    cases hra : readNextArg st.remainder with
    | error e =>
      obtain rfl := readNextArg_error _ _ hra
      exact ⟨by simp [colorA, hcs, hra], by simp [colorA, hcs, hra]⟩
    | ok p =>
      obtain ⟨v, rem⟩ := p
      refine ⟨by simp [colorA, hcs, hra], ?_⟩
      intro st2 h
      simp only [colorA, hcs, hra, Except.ok.injEq] at h
      subst h
      simpa [setEmbed] using le_of_lt (readNextArg_ok_length _ _ _ hra)

theorem erestA_good : GoodStep erestA := by
  intro st
  cases hcs : checkSet st.alreadySet "Embed content" with
  | error e =>
    obtain rfl := checkSet_error _ _ _ hcs
    exact ⟨by simp [erestA, hcs], by simp [erestA, hcs]⟩
  | ok as2 =>
    refine ⟨by simp [erestA, hcs], ?_⟩
    intro st2 h
    simp only [erestA, hcs, Except.ok.injEq] at h
    subst h
    simp [setEmbed]

theorem erestA_empty (st st2 : PState) (h : erestA st = .ok st2) : st2.remainder = [] := by
  cases hcs : checkSet st.alreadySet "Embed content" with
  | error e => simp [erestA, hcs] at h
  | ok as2 =>
    simp only [erestA, hcs, Except.ok.injEq] at h
    subst h
    simp [setEmbed]

theorem msgDispatch_rest (ctx : Ctx) : msgDispatch ctx "rest" = some restA := rfl

theorem embedDispatch_rest (ctx : Ctx) : embedDispatch ctx "rest" = some erestA := rfl

theorem msgDispatch_good (ctx : Ctx) (flag : String) (h : PState → Except Err PState)
    (hd : msgDispatch ctx flag = some h) : GoodStep h := by
  by_cases h1 : flag = "ins" ∨ flag = "insert"
  · cases ho : ctx.original with
    | some o =>
      rcases h1 with rfl | rfl <;>
      · simp [msgDispatch, ho] at hd
        subst hd
        intro st
        refine ⟨by simp, ?_⟩
        intro st2 hk
        simp only [Except.ok.injEq] at hk
        subst hk
        simp [insertA]
    | none =>
      rcases h1 with rfl | rfl <;> simp [msgDispatch, ho] at hd
  · by_cases h2 : flag = "c" ∨ flag = "txt" ∨ flag = "text" ∨ flag = "content"
    · rcases h2 with rfl | rfl | rfl | rfl <;>
      · obtain rfl := Option.some.inj hd
        exact contentA_good
    · by_cases h3 : flag = "f" ∨ flag = "att" ∨ flag = "attttachment"
      · rcases h3 with rfl | rfl | rfl <;>
        · obtain rfl := Option.some.inj hd
          exact attachmentA_good
      · by_cases h4 : flag = "rest"
        · subst h4
          obtain rfl := Option.some.inj hd
          exact restA_good
        · simp [msgDispatch, h1, h2, h3, h4] at hd

theorem embedDispatch_good (ctx : Ctx) (flag : String) (h : PState → Except Err PState)
    (hd : embedDispatch ctx flag = some h) : GoodStep h := by
  by_cases g1 : flag = "title"
  · subst g1; obtain rfl := Option.some.inj hd; exact titleA_good
  · by_cases g2 : flag = "footer"
    · subst g2; obtain rfl := Option.some.inj hd; exact footerA_good
    · by_cases g3 : flag = "footerme"
      · subst g3; obtain rfl := Option.some.inj hd; exact footermeA_good ctx
      · by_cases g4 : flag = "footericon"
        · subst g4; obtain rfl := Option.some.inj hd; exact footericonA_good
        · by_cases g5 : flag = "author"
          · subst g5; obtain rfl := Option.some.inj hd; exact authorA_good
          · by_cases g6 : flag = "authorme"
            · subst g6; obtain rfl := Option.some.inj hd; exact authormeA_good ctx
            · by_cases g7 : flag = "authoricon"
              · subst g7; obtain rfl := Option.some.inj hd; exact authoriconA_good
              · by_cases g8 : flag = "time"
                · subst g8; obtain rfl := Option.some.inj hd; exact timeA_good ctx
                · by_cases g9 : flag = "c" ∨ flag = "txt" ∨ flag = "text" ∨ flag = "content"
                  · rcases g9 with rfl | rfl | rfl | rfl <;>
                    · obtain rfl := Option.some.inj hd
                      exact econtentA_good
                  · by_cases g10 : flag = "url"
                    · subst g10; obtain rfl := Option.some.inj hd; exact urlA_good
                    · by_cases g11 : flag = "col" ∨ flag = "color"
                      · rcases g11 with rfl | rfl <;>
                        · obtain rfl := Option.some.inj hd
                          exact colorA_good
                      · by_cases g12 : flag = "rest"
                        · subst g12; obtain rfl := Option.some.inj hd; exact erestA_good
                        · simp [embedDispatch, g1, g2, g3, g4, g5, g6, g7, g8, g9, g10, g11,
                            g12] at hd

theorem seedEmbed_remainder (st : PState) : (seedEmbed st).remainder = st.remainder := rfl

theorem useArgsStore_ok_empty (ctx : Ctx) :
    ∀ (fuel : Nat) (mode : Mode) (st st2 : PState),
      useArgsStore ctx fuel mode st = .ok st2 → st2.remainder = [] := by
  intro fuel
  induction fuel with
  | zero =>
    intro mode st st2 h
    simp [useArgsStore] at h
  | succ n ih =>
    intro mode st st2 h
    simp only [useArgsStore] at h
    by_cases hemp : st.remainder = []
    · rw [if_pos hemp] at h
      obtain rfl := Except.ok.inj h
      exact hemp
    · rw [if_neg hemp] at h
      cases hnf : nextFlag st with
      | error e =>
        rw [hnf] at h
        exact absurd h (by simp)
      | ok p =>
        obtain ⟨flag, st1⟩ := p
        rw [hnf] at h
        cases mode with
        | msg =>
          cases hd : msgDispatch ctx flag with
          | some hh =>
            simp only [hd] at h
            cases hr : hh st1 with
            | error e =>
              rw [hr] at h
              exact absurd h (by simp)
            | ok stn =>
              rw [hr] at h
              exact ih .msg _ _ h
          | none =>
            simp only [hd] at h
            by_cases hfe : flag = "embed"
            · rw [if_pos hfe] at h
              cases hin : useArgsStore ctx n .emb (seedEmbed st1) with
              | error e =>
                rw [hin] at h
                exact absurd h (by simp)
              | ok st3 =>
                rw [hin] at h
                exact ih .msg _ _ h
            · rw [if_neg hfe] at h
              exact absurd h (by simp)
        | emb =>
          cases hd : embedDispatch ctx flag with
          | some hh =>
            simp only [hd] at h
            cases hr : hh st1 with
            | error e =>
              rw [hr] at h
              exact absurd h (by simp)
            | ok stn =>
              rw [hr] at h
              exact ih .emb _ _ h
          | none =>
            simp only [hd] at h
            exact absurd h (by simp)

theorem useArgsStore_no_fuel (ctx : Ctx) :
    ∀ (fuel : Nat) (mode : Mode) (st : PState),
      st.remainder.length < fuel →
      useArgsStore ctx fuel mode st ≠ .error .outOfFuel := by
  intro fuel
  induction fuel with
  | zero =>
    intro mode st h
    exact absurd h (Nat.not_lt_zero _)
  | succ n ih =>
    intro mode st hlen
    simp only [useArgsStore]
    by_cases hemp : st.remainder = []
    · rw [if_pos hemp]
      simp
    · rw [if_neg hemp]
      have hpos : 0 < st.remainder.length := List.length_pos.mpr hemp
      cases hnf : nextFlag st with
      | error e =>
        obtain rfl := nextFlag_error _ _ hnf
        simp
      | ok p =>
        obtain ⟨flag, st1⟩ := p
        have hstep := nextFlag_ok _ _ _ hnf
        cases mode with
        | msg =>
          cases hd : msgDispatch ctx flag with
          | some hh =>
            cases hr : hh st1 with
            | error e =>
              have hgood := (msgDispatch_good ctx flag hh hd st1).1
              rw [hr] at hgood
              simp only [hd, hr]
              exact hgood
            | ok st2 =>
              have hle := (msgDispatch_good ctx flag hh hd st1).2 st2 hr
              have hlt : (jsTrim st2.remainder).length < n := by
                rcases hstep with hlt1 | ⟨rfl, rfl⟩
                · have := jsTrim_length_le st2.remainder
                  omega
                · obtain rfl : restA = hh := Option.some.inj ((msgDispatch_rest ctx).symm.trans hd)
                  have hre := restA_empty _ _ hr
                  rw [hre, jsTrim_nil]
                  simp only [List.length_nil]
                  omega
              have hrec := ih .msg { st2 with remainder := jsTrim st2.remainder } hlt
              simp only [hd, hr]
              exact hrec
          | none =>
            by_cases hfe : flag = "embed"
            · subst hfe
              have hst1 : st1.remainder.length < n := by
                rcases hstep with hlt1 | ⟨rfl, hflag⟩
                · omega
                · exact absurd hflag (by decide)
              have hinner := ih .emb (seedEmbed st1) hst1
              cases hin : useArgsStore ctx n .emb (seedEmbed st1) with
              | error e =>
                rw [hin] at hinner
                simp only [hd, if_pos rfl, hin]
                exact hinner
              | ok st3 =>
                have h3 := useArgsStore_ok_empty ctx n .emb (seedEmbed st1) st3 hin
                have hlt0 : (jsTrim st3.remainder).length < n := by
                  rw [h3, jsTrim_nil]
                  simp only [List.length_nil]
                  omega
                have hrec := ih .msg { st3 with remainder := jsTrim st3.remainder } hlt0
                simp only [hd, if_pos rfl, hin]
                exact hrec
            · simp [hd, hfe]
        | emb =>
          cases hd : embedDispatch ctx flag with
          | some hh =>
            cases hr : hh st1 with
            | error e =>
              have hgood := (embedDispatch_good ctx flag hh hd st1).1
              rw [hr] at hgood
              simp only [hd, hr]
              exact hgood
            | ok st2 =>
              have hle := (embedDispatch_good ctx flag hh hd st1).2 st2 hr
              have hlt : (jsTrim st2.remainder).length < n := by
                rcases hstep with hlt1 | ⟨rfl, rfl⟩
                · have := jsTrim_length_le st2.remainder
                  omega
                · obtain rfl : erestA = hh := Option.some.inj ((embedDispatch_rest ctx).symm.trans hd)
                  have hre := erestA_empty _ _ hr
                  rw [hre, jsTrim_nil]
                  simp only [List.length_nil]
                  omega
              have hrec := ih .emb { st2 with remainder := jsTrim st2.remainder } hlt
              simp only [hd, hr]
              exact hrec
          | none =>
            simp [hd]

/-- Specification-side encoding of a well-formed quoted segment (the text
between the quotes): `qsegDecode raw = some out` holds exactly when `raw`
contains no unescaped quote and no dangling final backslash, and `out` is the
escape-resolved text. -/
def qsegDecode : List Char → Option (List Char)
  | [] => some []
  | c :: rest =>
    if c = '\\' then
      match rest with
      | [] => none
      | c2 :: rest2 => (qsegDecode rest2).map (fun out => escTable c2 :: out)
    else if c = '"' then none
    else (qsegDecode rest).map (fun out => c :: out)

theorem scanQuoted_cons_esc (c : Char) (rest : List Char) :
    scanQuoted (c :: rest) true =
      (escTable c :: (scanQuoted rest false).1, (scanQuoted rest false).2 + 1) := by
  simp [scanQuoted]

theorem scanQuoted_cons_backslash (rest : List Char) :
    scanQuoted ('\\' :: rest) false =
      ((scanQuoted rest true).1, (scanQuoted rest true).2 + 1) := by
  simp [scanQuoted]

theorem scanQuoted_cons_quote (rest : List Char) :
    scanQuoted ('"' :: rest) false = ([], 1) := by
  simp [scanQuoted]

theorem scanQuoted_cons_other (c : Char) (rest : List Char) (h1 : c ≠ '\\') (h2 : c ≠ '"') :
    scanQuoted (c :: rest) false =
      (c :: (scanQuoted rest false).1, (scanQuoted rest false).2 + 1) := by
  simp [scanQuoted, h1, h2]

theorem scanQuoted_decode :
    ∀ (n : Nat) (raw out rest : List Char), raw.length ≤ n →
      qsegDecode raw = some out →
      scanQuoted (raw ++ '"' :: rest) false = (out, raw.length + 1) := by
  intro n
  induction n with
  | zero =>
    intro raw out rest hn h
    obtain rfl : raw = [] := List.length_eq_zero.mp (Nat.le_zero.mp hn)
    simp only [qsegDecode, Option.some.injEq] at h
    subst h
    simp [scanQuoted_cons_quote]
  | succ n ih =>
    intro raw out rest hn h
    cases raw with
    | nil =>
      simp only [qsegDecode, Option.some.injEq] at h
      subst h
      simp [scanQuoted_cons_quote]
    | cons c rest1 =>
      by_cases hc : c = '\\'
      · subst hc
        cases rest1 with
        | nil => simp [qsegDecode] at h
        | cons c2 rest2 =>
          cases hq : qsegDecode rest2 with
          | none => simp [qsegDecode, hq] at h
          | some out0 =>
            simp [qsegDecode, hq] at h
            subst h
            have hrec := ih rest2 out0 rest (by simp at hn; omega) hq
            rw [List.cons_append, List.cons_append, scanQuoted_cons_backslash,
              scanQuoted_cons_esc, hrec]
            simp only [List.length_cons, Prod.mk.injEq]
      · by_cases hq2 : c = '"'
        · subst hq2
          unfold qsegDecode at h
          simp at h
        · cases hq : qsegDecode rest1 with
          | none =>
            unfold qsegDecode at h
            rw [if_neg hc, if_neg hq2, hq] at h
            simp at h
          | some out0 =>
            unfold qsegDecode at h
            rw [if_neg hc, if_neg hq2, hq] at h
            simp only [Option.map_some', Option.some.injEq] at h
            subst h
            have hrec := ih rest1 out0 rest (by simp at hn; omega) hq
            rw [List.cons_append, scanQuoted_cons_other c _ hc hq2, hrec]
            simp only [List.length_cons, Prod.mk.injEq]

theorem drop_append_length (l1 l2 : List Char) (n : Nat) :
    (l1 ++ l2).drop (l1.length + n) = l2.drop n := by
  induction l1 with
  | nil => simp
  | cons c t ih =>
    simp [List.length_cons, Nat.succ_add, ih]

theorem mem_takeWhile_true (p : Char → Bool) :
    ∀ (l : List Char) (c : Char), c ∈ l.takeWhile p → p c = true := by
  intro l
  induction l with
  | nil => intro c h; simp [List.takeWhile] at h
  | cons a t ih =>
    intro c h
    by_cases ha : p a
    · rw [List.takeWhile_cons_of_pos ha] at h
      rcases List.mem_cons.mp h with rfl | h2
      · exact ha
      · exact ih c h2
    · rw [List.takeWhile_cons_of_neg ha] at h
      simp at h

theorem head_dropWhile_false (p : Char → Bool) :
    ∀ (l : List Char) (c : Char), (l.dropWhile p).head? = some c → p c = false := by
  intro l
  induction l with
  | nil => intro c h; simp [List.dropWhile] at h
  | cons a t ih =>
    intro c h
    by_cases ha : p a
    · rw [List.dropWhile_cons_of_pos ha] at h
      exact ih c h
    · rw [List.dropWhile_cons_of_neg ha] at h
      simp only [List.head?_cons, Option.some.injEq] at h
      subst h
      simpa using ha

theorem firstMatchRun_none (p : Char → Bool) :
    ∀ s : List Char, firstMatchRun p s = none → ∀ c ∈ s, p c = false := by
  intro s
  induction s with
  | nil =>
    intro h c hc
    simp at hc
  | cons c t ih =>
    intro h x hx
    unfold firstMatchRun at h
    split_ifs at h with hc
    rcases List.mem_cons.mp hx with rfl | hx2
    · simpa using hc
    · exact ih h x hx2

theorem firstMatchRun_some (p : Char → Bool) :
    ∀ (s r : List Char), firstMatchRun p s = some r →
      r ≠ [] ∧ (∀ c ∈ r, p c = true) ∧
      ∃ pre post, s = pre ++ r ++ post ∧ (∀ c ∈ pre, p c = false) ∧
        (∀ c, post.head? = some c → p c = false) := by
  intro s
  induction s with
  | nil => intro r h; simp [firstMatchRun] at h
  | cons c t ih =>
    intro r h
    unfold firstMatchRun at h
    split_ifs at h with hc
    · obtain rfl := Option.some.inj h
      refine ⟨by simp, ?_, [], t.dropWhile p, ?_, by simp, ?_⟩
      · intro x hx
        rcases List.mem_cons.mp hx with rfl | hx2
        · exact hc
        · exact mem_takeWhile_true p t x hx2
      · simp [List.takeWhile_append_dropWhile]
      · intro x hx
        exact head_dropWhile_false p t x hx
    · obtain ⟨hne, hall, pre, post, heq, hpre, hpost⟩ := ih r h
      refine ⟨hne, hall, c :: pre, post, by simp [heq], ?_, hpost⟩
      intro x hx
      rcases List.mem_cons.mp hx with rfl | hx2
      · simpa using hc
      · exact hpre x hx2

/-- C1: code bug.  At the failing input `-embed -time garbage` (in a context
where the literal yields an Invalid Date, as `garbage` does in JavaScript),
the parse aborts with the unclassified JavaScript error
`RangeError: Invalid time value` raised by `toISOString` outside the `try`,
not with the user-facing CommandError naming the literal that the spec (and
the dead `catch` block of the source) describe.  The `now` literal,
case-insensitively, does set the timestamp to the current instant. -/
theorem C1_time_invalid_date_is_unclassified :
    parseMessageAdvancedArgs ctxPlain (S "-embed -time garbage") =
      .error (.js "RangeError: Invalid time value") ∧
    parseMessageAdvancedArgs ctxPlain (S "-embed -time NOW") =
      .ok (S "", { files := none,
                   embeds := some [{ timestamp := some ctxPlain.nowISO }] }) :=
  ⟨rfl, rfl⟩

/-- C2 counterexample: with an original message supplied, the parse
`-insert -c foo` succeeds (content `foo`), whereas the claim requires it to
fail with `Content set more than once` — `insert` performs no claim of the
`Content` label. -/
theorem C2_counterexample :
    parseMessageAdvancedArgs ctxEdit (S "-insert -c foo") =
      .ok (S "foo", { files := none, embeds := some [embT] }) ∧
    parseMessageAdvancedArgs ctxEdit (S "-insert -c foo") ≠
      .error (.cmd "Content set more than once") :=
  ⟨rfl, by decide⟩

/-- C2 amended: the insert action copies the original message's text content
and embeds verbatim into the composition state (replacing the options record)
but does not claim the `Content` label: the claim table is left untouched, so
a later `Content` claim succeeds instead of failing with `Content set more
than once`. -/
theorem C2_insert_copies_without_claiming :
    (∀ (o : Orig) (st : PState), insertA o st =
      { st with content := o.content,
                options := { files := none, embeds := some o.embeds } }) ∧
    parseMessageAdvancedArgs ctxEdit (S "-insert") =
      .ok (S "orig", { files := none, embeds := some [embT] }) ∧
    parseMessageAdvancedArgs ctxEdit (S "-insert -c foo") =
      .ok (S "foo", { files := none, embeds := some [embT] }) :=
  ⟨fun _ _ => rfl, rfl, rfl⟩

/-- C3 counterexample: for the quoted input `"a"bc` the text after the
closing quote is `bc`, but `readNextArg` returns remainder `c` — the
character immediately after the closing quote (normally the separating
space) is dropped by the `substr(len + 2)` computation. -/
theorem C3_counterexample :
    readNextArg (S "\"a\"bc") = .ok (S "a", S "c") ∧ (S "c" : List Char) ≠ S "bc" :=
  ⟨rfl, by decide⟩

/-- C3 amended: for every trim-invariant input consisting of a double quote,
a well-formed escape-encoded segment `raw` (no unescaped quote, no dangling
backslash) decoding to `out`, a closing quote, and arbitrary text `rest`, the
returned argument is `out` (escapes resolved: backslash-r to CR, backslash-n
to LF, backslash-t to TAB, backslash-backslash to backslash, any other
escaped character passed through), and the returned remainder is the text
after the closing quote with its FIRST character removed (the source skips
one separator character), not the full text after the closing quote. -/
theorem C3_quoted_arg_amended (raw out rest : List Char)
    (hq : qsegDecode raw = some out)
    (htrim : jsTrim ('"' :: raw ++ '"' :: rest) = '"' :: raw ++ '"' :: rest) :
    readNextArg ('"' :: raw ++ '"' :: rest) = .ok (out, rest.drop 1) := by
  have hscan := scanQuoted_decode raw.length raw out rest (le_refl _) hq
  unfold readNextArg
  rw [htrim]
  rw [if_neg (by simp)]
  rw [if_pos (by simp)]
  have htail : ('"' :: raw ++ '"' :: rest).tail = raw ++ '"' :: rest := rfl
  simp only [List.drop_one, htail, hscan]
  have hdrop : ('"' :: raw ++ '"' :: rest).drop (raw.length + 1 + 2) = rest.drop 1 := by
    rw [List.cons_append]
    have h1 : raw.length + 1 + 2 = (raw.length + 2) + 1 := by omega
    rw [h1, List.drop_succ_cons]
    calc (raw ++ '"' :: rest).drop (raw.length + 2)
        = ('"' :: rest).drop 2 := drop_append_length raw _ 2
      _ = rest.drop 1 := by
          rw [show (2 : Nat) = 1 + 1 from rfl, List.drop_succ_cons]
  rw [hdrop, List.drop_one]

theorem C3_quoted_arg_amended_witness :
    readNextArg ('"' :: S "a\\nb" ++ '"' :: S " tail") = .ok (S "a\nb", (S " tail").drop 1) :=
  C3_quoted_arg_amended (S "a\\nb") (S "a\nb") (S " tail") (by decide) (by decide)

/-- C4 counterexample: for the input consisting of a newline followed by
`abc`, the claim requires line `""` (the longest run of non-newline
characters starting at the beginning is empty) and remainder `abc`; the code
returns line `abc` and remainder `""`, because the regex `/[^\r\n]+/` is
unanchored and matches the first run anywhere in the input. -/
theorem C4_counterexample :
    readNextLine (S "\nabc") = .ok (S "abc", S "") ∧
    readNextLine (S "\nabc") ≠ .ok (S "", S "abc") :=
  ⟨rfl, by decide⟩

/-- C4 amended: `readNextLine` fails with `Not enough lines` exactly on empty
input; otherwise the returned line is the LEFTMOST maximal nonempty run of
non-newline characters anywhere in the input (the whole input when it
consists only of newline characters), and the remainder is the input with
its first `line.length + 1` characters removed, trimmed. -/
theorem C4_readNextLine_amended :
    readNextLine [] = .error (.cmd "Not enough lines") ∧
    ∀ s : List Char, s ≠ [] →
      ∃ l, readNextLine s = .ok (l, jsTrim (s.drop (l.length + 1))) ∧
        ((l ≠ [] ∧ (∀ c ∈ l, notNL c = true) ∧
          ∃ pre post, s = pre ++ l ++ post ∧ (∀ c ∈ pre, notNL c = false) ∧
            (∀ c, post.head? = some c → notNL c = false)) ∨
         ((∀ c ∈ s, notNL c = false) ∧ l = s)) := by
  constructor
  · rfl
  · intro s hs
    cases hm : firstMatchRun notNL s with
    | none =>
      refine ⟨s, ?_, Or.inr ⟨firstMatchRun_none notNL s hm, rfl⟩⟩
      unfold readNextLine
      rw [if_neg hs]
      simp [hm]
    | some r =>
      obtain ⟨hne, hall, pre, post, heq, hpre, hpost⟩ := firstMatchRun_some notNL s r hm
      refine ⟨r, ?_, Or.inl ⟨hne, hall, pre, post, heq, hpre, hpost⟩⟩
      unfold readNextLine
      rw [if_neg hs]
      simp [hm]

theorem C4_readNextLine_amended_witness :
    ∃ l, readNextLine (S "\nab") = .ok (l, jsTrim ((S "\nab").drop (l.length + 1))) ∧
      ((l ≠ [] ∧ (∀ c ∈ l, notNL c = true) ∧
        ∃ pre post, S "\nab" = pre ++ l ++ post ∧ (∀ c ∈ pre, notNL c = false) ∧
          (∀ c, post.head? = some c → notNL c = false)) ∨
       ((∀ c ∈ S "\nab", notNL c = false) ∧ l = S "\nab")) :=
  C4_readNextLine_amended.2 (S "\nab") (by decide)

/-- C5: parsing `-embed -title "News" -col ff0000 -rest Big announcement`
with no original message succeeds with an embed titled `News`, color
`16711680` (base-16 parse of `ff0000`), description `Big announcement`, and
the overall message content unset: the source initialises `content` to the
empty string and no action assigns it, so the returned content is still the
empty string and the `Content` claim label is never recorded (the final claim
table holds exactly the three embed labels). -/
theorem C5_end_to_end_scenario :
    parseMessageAdvancedArgs ctxPlain
        (S "-embed -title \"News\" -col ff0000 -rest Big announcement") =
      .ok (S "", { files := none,
                   embeds := some [{ title := some (S "News"),
                                     description := some (S "Big announcement"),
                                     color := some (JsNum.int 16711680) }] }) ∧
    useArgsStore ctxPlain
        ((jsTrim (S "-embed -title \"News\" -col ff0000 -rest Big announcement")).length + 1)
        .msg
        { remainder := jsTrim (S "-embed -title \"News\" -col ff0000 -rest Big announcement") } =
      .ok { remainder := [], content := [],
            options := { files := none,
                         embeds := some [{ title := some (S "News"),
                                           description := some (S "Big announcement"),
                                           color := some (JsNum.int 16711680) }] },
            alreadySet := ["Embed content", "Embed color", "Embed title"] } :=
  ⟨rfl, rfl⟩

/-- C6: the duplicate-claim law.  Mechanism: for every label and every claim
table already containing it, `checkSet` fails with exactly
`<label> set more than once`.  Instances in both grammars: `-c foo -c bar`
fails with `Content set more than once`, and
`-embed -title a -title b` fails with `Embed title set more than once`. -/
theorem C6_duplicate_claim_law :
    (∀ (as : List String) (name : String), name ∈ as →
      checkSet as name = .error (.cmd (name ++ " set more than once"))) ∧
    parseMessageAdvancedArgs ctxPlain (S "-c foo -c bar") =
      .error (.cmd "Content set more than once") ∧
    parseMessageAdvancedArgs ctxPlain (S "-embed -title a -title b") =
      .error (.cmd "Embed title set more than once") :=
  ⟨checkSet_mem, rfl, rfl⟩

theorem C6_duplicate_claim_law_witness :
    checkSet ["Content"] "Content" = .error (.cmd ("Content" ++ " set more than once")) :=
  C6_duplicate_claim_law.1 ["Content"] "Content" (by decide)

/-- C7: footer-icon ordering.  `-embed -footericon http://i.png` fails with
the specific CommandError `Footer text needs to be set before the footer
icon`, while `-embed -footer "Foo" -footericon http://i.png` succeeds and
yields a footer with text `Foo` and icon `http://i.png`. -/
theorem C7_footericon_ordering :
    parseMessageAdvancedArgs ctxPlain (S "-embed -footericon http://i.png") =
      .error (.cmd "Footer text needs to be set before the footer icon") ∧
    parseMessageAdvancedArgs ctxPlain (S "-embed -footer \"Foo\" -footericon http://i.png") =
      .ok (S "", { files := none, embeds := some [{ footer := some { text := S "Foo", icon_url := some (S "http://i.png") } }] }) :=
  ⟨rfl, rfl⟩

/-- C8: the dispatch loop terminates on every input: with fuel exceeding the
cursor length the fuel marker is unreachable (each non-failing iteration
either consumes at least the flag token or, for `rest`, empties the cursor),
a successful run always ends with the empty cursor, and
`parseMessageAdvancedArgs` (which supplies fuel `length + 1`) never exhausts
its fuel. -/
theorem C8_dispatch_loop_terminates :
    (∀ (ctx : Ctx) (fuel : Nat) (mode : Mode) (st : PState),
      st.remainder.length < fuel →
      useArgsStore ctx fuel mode st ≠ .error .outOfFuel) ∧
    (∀ (ctx : Ctx) (fuel : Nat) (mode : Mode) (st st2 : PState),
      useArgsStore ctx fuel mode st = .ok st2 → st2.remainder = []) ∧
    (∀ (ctx : Ctx) (args : List Char),
      parseMessageAdvancedArgs ctx args ≠ .error .outOfFuel) := by
  refine ⟨fun ctx fuel mode st h => useArgsStore_no_fuel ctx fuel mode st h,
          fun ctx fuel mode st st2 h => useArgsStore_ok_empty ctx fuel mode st st2 h, ?_⟩
  intro ctx args hcon
  have hne := useArgsStore_no_fuel ctx ((jsTrim args).length + 1) .msg
    { remainder := jsTrim args } (Nat.lt_succ_self _)
  unfold parseMessageAdvancedArgs at hcon
  dsimp only at hcon
  cases hu : useArgsStore ctx ((jsTrim args).length + 1) .msg { remainder := jsTrim args } with
  | error e =>
    rw [hu] at hne hcon
    simp only [Except.map, Except.error.injEq] at hcon
    subst hcon
    exact hne rfl
  | ok st =>
    rw [hu] at hcon
    simp [Except.map] at hcon

theorem C8_dispatch_loop_terminates_witness :
    useArgsStore ctxPlain 5 .msg { remainder := S "-c x" } ≠ .error .outOfFuel :=
  C8_dispatch_loop_terminates.1 ctxPlain 5 .msg { remainder := S "-c x" } (by decide)

/-- C9: the insert action replaces the whole options record with one holding
only the original message's embeds, so its files field is always absent
afterwards; attachments appended before `-insert` are discarded, and an
attachment flag after it re-adds to a fresh list. -/
theorem C9_insert_discards_files :
    (∀ (o : Orig) (st : PState), (insertA o st).options.files = none ∧
      (insertA o st).options.embeds = some o.embeds) ∧
    parseMessageAdvancedArgs ctxEdit (S "-att u -insert") =
      .ok (S "orig", { files := none, embeds := some [embT] }) ∧
    parseMessageAdvancedArgs ctxEdit (S "-att u -insert -att v") =
      .ok (S "orig", { files := some [S "v"], embeds := some [embT] }) :=
  ⟨fun _ _ => ⟨rfl, rfl⟩, rfl, rfl⟩

/-- C10: after `-embed` fires, dispatch continues against the embed table on
the same cursor until it is empty (a successful run of the embed-mode loop
always ends with the empty cursor), and every message-level-only flag name is
absent from the embed table, so `-att` or `-insert` after `-embed` fails with
the unknown-argument error naming that flag. -/
theorem C10_embed_swallows_message_flags :
    (∀ (ctx : Ctx) (flag : String),
      flag ∈ (["ins", "insert", "f", "att", "attttachment", "embed"] : List String) →
      embedDispatch ctx flag = none) ∧
    (∀ (ctx : Ctx) (fuel : Nat) (st st2 : PState),
      useArgsStore ctx fuel .emb st = .ok st2 → st2.remainder = []) ∧
    parseMessageAdvancedArgs ctxPlain (S "-embed -att http://x") =
      .error (.cmd "Argument att is unknown/unexpected here") ∧
    parseMessageAdvancedArgs ctxEdit (S "-embed -insert") =
      .error (.cmd "Argument insert is unknown/unexpected here") := by
  refine ⟨?_, fun ctx fuel st st2 h => useArgsStore_ok_empty ctx fuel .emb st st2 h, rfl, rfl⟩
  intro ctx flag hmem
  simp only [List.mem_cons, List.not_mem_nil, or_false] at hmem
  rcases hmem with rfl | rfl | rfl | rfl | rfl | rfl <;> rfl

theorem C10_embed_swallows_message_flags_witness :
    embedDispatch ctxPlain "att" = none ∧
    ({ remainder := ([] : List Char) } : PState).remainder = [] :=
  ⟨C10_embed_swallows_message_flags.1 ctxPlain "att" (by decide),
   C10_embed_swallows_message_flags.2.1 ctxPlain 1 { remainder := [] } { remainder := [] } rfl⟩
